import Mathlib

/-!
Verification of the FormBuilder factory (packages/forms/src/form_builder.ts)
and of the Group-Control value invariant of the form model, against the
repository's specification.

Part 1 embeds `form_builder.ts` over a universe `JSV` of runtime JavaScript
values: the factory code is dynamically typed (it branches on `instanceof`
and `Array.isArray`), so its faithful shallow embedding works on a single
value type whose constructors distinguish exactly what the source code
distinguishes.  Instances of the built-in control classes `FormControl`,
`FormGroup` and `FormArray` (defined in the `model` collaborator, which is
not part of this source fragment) are modelled, following the spec, as
constructors storing the arguments the factory passes to them.

Part 2 (further below) models the Group-Control tree with cached composite
values and the update/disable propagation protocol, as the spec describes it,
and proves the value invariant on every reachable state.
-/

namespace AngularForms

/-- A runtime JavaScript value as the form builder sees it.  `undefined` and
`jnull` are the two JS nullish values (`undefined`, `null`); `prim` is an
opaque primitive or function value identified by a tag; `str` a string;
`jarr` a JS array; the last three constructors are instances of the built-in
control classes, storing their constructor arguments. -/
inductive JSV where
  | undefined : JSV
  | jnull : JSV
  | prim (tag : Nat) : JSV
  | str (s : String) : JSV
  | jarr (elems : List JSV) : JSV
  | formControl (formState validatorOrOpts asyncValidator : JSV) : JSV
  | formGroup (controls : List (String × JSV))
      (validators asyncValidators updateOn : JSV) : JSV
  | formArray (controls : List JSV) (validatorOrOpts asyncValidator : JSV) : JSV

/-- `c instanceof FormControl || c instanceof FormGroup || c instanceof FormArray`. -/
def isBuiltinControl : JSV → Bool
  | .formControl _ _ _ => true
  | .formGroup _ _ _ _ => true
  | .formArray _ _ _ => true
  | _ => false

/-- `Array.isArray c`. -/
def isJsArray : JSV → Bool
  | .jarr _ => true
  | _ => false

/-- JS loose `x != null`: false exactly on `undefined` and `null`. -/
def isNonNullish : JSV → Bool
  | .undefined => false
  | .jnull => false
  | _ => true

/-- JS strict `x !== undefined` is the negation of this. -/
def isUndefined : JSV → Bool
  | .undefined => true
  | _ => false

/-- The options object passed to `FormBuilder.group`: each field holds the JS
value found at that key, `JSV.undefined` when the key is absent (JS property
lookup on a missing key yields `undefined`, and the source only ever tests
`!== undefined` or `!= null`, which cannot tell a missing key from a key set
to `undefined`). -/
structure GroupRawOptions where
  validators : JSV
  asyncValidators : JSV
  updateOn : JSV
  validator : JSV
  asyncValidator : JSV

/-- `isAbstractControlOptions` from form_builder.ts: the object counts as
modern `AbstractControlOptions` when any of `asyncValidators`, `validators`
or `updateOn` is not strictly `undefined`. -/
def isAbstractControlOptions (o : GroupRawOptions) : Bool :=
  !(isUndefined o.asyncValidators) || !(isUndefined o.validators) ||
    !(isUndefined o.updateOn)

/-- `FormBuilder.control`: forwards its arguments to the `FormControl`
constructor. -/
def control (formState validatorOrOpts asyncValidator : JSV) : JSV :=
  .formControl formState validatorOrOpts asyncValidator

/-- `FormBuilder._createControl`: pass a built-in control through unchanged;
turn an array `[value, validator?, asyncValidator?]` into a `FormControl`
(the missing validator slots become `null`); wrap anything else as a bare
initial value (the absent `control` arguments are `undefined`). -/
def createControl (controlConfig : JSV) : JSV :=
  if isBuiltinControl controlConfig then
    controlConfig
  else
    match controlConfig with
    | .jarr xs =>
        control (xs.headD .undefined)
          (if 1 < xs.length then xs.getD 1 .undefined else .jnull)
          (if 2 < xs.length then xs.getD 2 .undefined else .jnull)
    | c => control c .undefined .undefined

/-- `FormBuilder._reduceControls`: iterate over the configuration keys in
insertion order, assigning the normalized control under each key. -/
def reduceControls (controlsConfig : List (String × JSV)) : List (String × JSV) :=
  controlsConfig.foldl (fun controls p => controls ++ [(p.1, createControl p.2)]) []

/-- `FormBuilder.group`: build the controls, then read validators from the
modern options shape when `isAbstractControlOptions` holds, from the legacy
flat shape otherwise; `updateOn` starts as `undefined` and is only set on the
modern path. -/
def group (controlsConfig : List (String × JSV))
    (options : Option GroupRawOptions) : JSV :=
  let controls := reduceControls controlsConfig
  match options with
  | none => .formGroup controls .jnull .jnull .undefined
  | some o =>
      if isAbstractControlOptions o then
        .formGroup controls
          (if isNonNullish o.validators then o.validators else .jnull)
          (if isNonNullish o.asyncValidators then o.asyncValidators else .jnull)
          (if isNonNullish o.updateOn then o.updateOn else .undefined)
      else
        .formGroup controls
          (if isNonNullish o.validator then o.validator else .jnull)
          (if isNonNullish o.asyncValidator then o.asyncValidator else .jnull)
          .undefined

/-- `FormBuilder.array`: normalize each element and hand the list to the
`FormArray` constructor. -/
def array (controlsConfig : List JSV) (validatorOrOpts asyncValidator : JSV) : JSV :=
  .formArray (controlsConfig.map (fun c => createControl c)) validatorOrOpts asyncValidator

/-- The controls mapping stored in a constructed `FormGroup`. -/
def groupControls : JSV → List (String × JSV)
  | .formGroup cs _ _ _ => cs
  | _ => []

/-- The `updateOn` option a constructed `FormGroup` received. -/
def groupUpdateOn : JSV → JSV
  | .formGroup _ _ _ u => u
  | _ => .undefined

/-- The controls sequence stored in a constructed `FormArray`. -/
def arrayControls : JSV → List JSV
  | .formArray cs _ _ => cs
  | _ => []

/-- `_reduceControls` is key-wise normalization: the accumulating fold equals
the map of `createControl` over the configuration entries. -/
theorem reduceControls_eq_map (cfg : List (String × JSV)) :
    reduceControls cfg = cfg.map (fun p => (p.1, createControl p.2)) := by
  have general : ∀ (l : List (String × JSV)) (acc : List (String × JSV)),
      l.foldl (fun controls p => controls ++ [(p.1, createControl p.2)]) acc =
        acc ++ l.map (fun p => (p.1, createControl p.2)) := by
    intro l
    induction l with
    | nil => intro acc; simp
    | cons hd tl ih => intro acc; simp [List.foldl, ih]
  simpa [reduceControls] using general cfg []

/-- C3: a child configuration that is an existing built-in control instance is
returned by `_createControl` exactly as-is, never wrapped in a new
`FormControl`. -/
theorem createControl_passthrough (c : JSV) (h : isBuiltinControl c = true) :
    createControl c = c := by
  simp [createControl, h]

/-- Witness for C3 at a concrete `FormControl` instance. -/
theorem createControl_passthrough_witness :
    createControl (JSV.formControl (JSV.str "x") JSV.jnull JSV.jnull) =
      JSV.formControl (JSV.str "x") JSV.jnull JSV.jnull :=
  createControl_passthrough _ rfl

/-- C4: for every controls configuration and every pair of validator values,
`group` applied to the legacy flat options `(validator, asyncValidator)`
builds exactly the same `FormGroup` (same controls, validators,
asyncValidators and updateOn) as `group` applied to the modern options
`(validators, asyncValidators)`. -/
theorem group_legacy_options_alias (cfg : List (String × JSV)) (f g : JSV) :
    group cfg (some ⟨.undefined, .undefined, .undefined, f, g⟩) =
      group cfg (some ⟨f, g, .undefined, .undefined, .undefined⟩) := by
  cases f <;> cases g <;> rfl

/-- C5: an array configuration `[v, ...]` builds a `FormControl` whose initial
state is the first element, whose synchronous validator is the element at
index 1 when the array is longer than 1 (null otherwise), and whose async
validator is the element at index 2 when the array is longer than 2 (null
otherwise). -/
theorem createControl_tuple (v : JSV) (rest : List JSV) :
    createControl (.jarr (v :: rest)) =
      JSV.formControl v (rest.headD .jnull) (rest.tail.headD .jnull) := by
  cases rest with
  | nil => rfl
  | cons f r2 =>
    cases r2 with
    | nil => rfl
    | cons g r3 =>
      simp only [createControl, isBuiltinControl, control, List.length_cons,
        Bool.false_eq_true, if_false]
      rw [if_pos (by omega), if_pos (by omega)]
      simp [List.getD]

/-- C6: a bare-value configuration (neither a built-in control instance nor an
array) builds a `FormControl` with that value as initial state and no
validators attached (both validator arguments are the absent `undefined`). -/
theorem createControl_bare (c : JSV) (h1 : isBuiltinControl c = false)
    (h2 : isJsArray c = false) :
    createControl c = JSV.formControl c JSV.undefined JSV.undefined := by
  cases c <;> simp_all [createControl, isBuiltinControl, isJsArray, control]

/-- Witness for C6 at a concrete bare string value. -/
theorem createControl_bare_witness :
    createControl (JSV.str "x") = JSV.formControl (JSV.str "x") JSV.undefined JSV.undefined :=
  createControl_bare _ rfl rfl

/-- C7: normalization is applied independently per child: the controls of
`group cfg opts` are exactly the key-wise normalization of `cfg` (hence have
exactly the keys of `cfg`, in order), and the controls of `array cfg ...` are
exactly the element-wise normalization of `cfg` in the same order. -/
theorem builder_childwise_normalization (cfg : List (String × JSV))
    (opts : Option GroupRawOptions) (cfgA : List JSV) (vo ao : JSV) :
    groupControls (group cfg opts) = cfg.map (fun p => (p.1, createControl p.2)) ∧
    (groupControls (group cfg opts)).map Prod.fst = cfg.map Prod.fst ∧
    arrayControls (array cfgA vo ao) = cfgA.map (fun c => createControl c) := by
  have hg : groupControls (group cfg opts) =
      cfg.map (fun p => (p.1, createControl p.2)) := by
    cases opts with
    | none => simp [group, groupControls, reduceControls_eq_map]
    | some o =>
        by_cases h : isAbstractControlOptions o = true
        · simp [group, groupControls, h, reduceControls_eq_map]
        · simp [group, groupControls, h, reduceControls_eq_map]
  refine ⟨hg, ?_, ?_⟩
  · rw [hg]; simp
  · simp [array, arrayControls]

/-- C8 (counterexample to the claim as stated): the empty array is not one of
the configuration shapes the spec supports, yet construction does not fail:
`_createControl` silently builds a `FormControl` with `undefined` initial
state and `null` validators. -/
theorem createControl_empty_tuple_no_error :
    createControl (.jarr []) = JSV.formControl JSV.undefined JSV.jnull JSV.jnull := rfl

/-- C8 (amended): the factory never raises a configuration error: for every
configuration value whatsoever, `_createControl` totally returns a built-in
control instance (anything unrecognized is wrapped as a bare initial value). -/
theorem createControl_total (c : JSV) : isBuiltinControl (createControl c) = true := by
  cases c <;> rfl

/-- C9: when any of `validators`, `asyncValidators`, `updateOn` is not
`undefined`, the options are handled as the modern shape: the constructed
`FormGroup` is determined by those three fields alone, and the legacy
`validator`/`asyncValidator` keys present in the same object contribute
nothing. -/
theorem group_modern_ignores_legacy (cfg : List (String × JSV))
    (va aa uo lv la : JSV)
    (h : isAbstractControlOptions ⟨va, aa, uo, lv, la⟩ = true) :
    group cfg (some ⟨va, aa, uo, lv, la⟩) =
      JSV.formGroup (reduceControls cfg)
        (if isNonNullish va then va else .jnull)
        (if isNonNullish aa then aa else .jnull)
        (if isNonNullish uo then uo else .undefined) := by
  simp [group, h]

/-- Witness for C9: with `validators` set, the legacy keys are dropped. -/
theorem group_modern_ignores_legacy_witness :
    group [] (some ⟨JSV.prim 1, JSV.undefined, JSV.undefined, JSV.prim 2, JSV.prim 3⟩) =
      JSV.formGroup [] (JSV.prim 1) JSV.jnull JSV.undefined := by
  have h := group_modern_ignores_legacy []
    (JSV.prim 1) JSV.undefined JSV.undefined (JSV.prim 2) (JSV.prim 3) rfl
  simpa [reduceControls] using h

/-- C10: an options object handled as the legacy flat shape leaves the
constructed group's `updateOn` at `undefined`: the legacy form cannot specify
an update trigger. -/
theorem group_legacy_updateOn_undefined (cfg : List (String × JSV))
    (o : GroupRawOptions) (h : isAbstractControlOptions o = false) :
    groupUpdateOn (group cfg (some o)) = JSV.undefined := by
  simp [group, groupUpdateOn, h]

/-- Witness for C10 at a concrete legacy options object. -/
theorem group_legacy_updateOn_undefined_witness :
    groupUpdateOn (group [] (some ⟨JSV.undefined, JSV.undefined, JSV.undefined, JSV.prim 1, JSV.prim 2⟩)) =
      JSV.undefined :=
  group_legacy_updateOn_undefined [] _ rfl

/-!
Part 2.  Modelled from the spec: the Group-Control tree of the `model`
collaborator, which is not included in this source fragment.  Following the
spec's data model (§3) and propagation protocol (§2/§4.1): a node is a Leaf
Control (atomic value) or a Group Control (named children); every node
carries an enabled flag (DISABLED status is its negation); a group stores its
composite value, which the protocol recomputes from its children whenever a
mutation below it occurs ("parent recomputes its composite value from all
children"), and the composite value is the mapping of every enabled child's
name to that child's value, disabled children omitted.  Disabling a node
leaves its own stored value in place, so re-enabling restores the previous
contribution, as the spec requires.
-/

mutual
/-- Modelled from the spec: a composite value — an atom (leaf value) or an
object mapping names to values. -/
inductive GVal where
  | atom (n : Int) : GVal
  | obj (fields : VFields) : GVal
/-- Modelled from the spec: the ordered fields of an object value. -/
inductive VFields where
  | vnil : VFields
  | vcons (name : String) (v : GVal) (rest : VFields) : VFields
end

mutual
/-- Modelled from the spec: a control node — a leaf with an atomic value, or
a group with named children and a stored composite value; both carry the
enabled flag. -/
inductive GNode where
  | leaf (value : Int) (enabled : Bool) : GNode
  | grp (children : GFields) (value : GVal) (enabled : Bool) : GNode
/-- Modelled from the spec: the ordered, named children of a group. -/
inductive GFields where
  | fnil : GFields
  | fcons (name : String) (child : GNode) (rest : GFields) : GFields
end

mutual
/-- Boolean equality on composite values. -/
def beqV : GVal → GVal → Bool
  | .atom a, .atom b => a == b
  | .obj fa, .obj fb => beqVF fa fb
  | _, _ => false
/-- Boolean equality on object fields. -/
def beqVF : VFields → VFields → Bool
  | .vnil, .vnil => true
  | .vcons n v r, .vcons n2 v2 r2 => n == n2 && beqV v v2 && beqVF r r2
  | _, _ => false
end

mutual
theorem beqV_refl : ∀ v : GVal, beqV v v = true
  | .atom a => by simp [beqV]
  | .obj fa => by simp [beqV, beqVF_refl fa]
theorem beqVF_refl : ∀ fs : VFields, beqVF fs fs = true
  | .vnil => rfl
  | .vcons n v r => by simp [beqVF, beqV_refl v, beqVF_refl r]
end

/-- Whether a node is currently enabled (its status is not DISABLED). -/
def isEnabledN : GNode → Bool
  | .leaf _ e => e
  | .grp _ _ e => e

/-- The `value` accessor of a node: a leaf exposes its atomic value, a group
its stored composite value. -/
def valueOfN : GNode → GVal
  | .leaf v _ => .atom v
  | .grp _ sv _ => sv

/-- Modelled from the spec: the projection of a children list to value
fields — every enabled child contributes its name and value, disabled
children are omitted entirely. -/
def projF : GFields → VFields
  | .fnil => .vnil
  | .fcons n c rest =>
      if isEnabledN c then .vcons n (valueOfN c) (projF rest) else projF rest

/-- Modelled from the spec: recompute a group's composite value from its
children. -/
def recomputeF (cs : GFields) : GVal := .obj (projF cs)

mutual
/-- Modelled from the spec: `setValue` on the leaf at the given path —
overwrite the leaf's value, then recompute the composite value of every
ancestor group along the path (the upward propagation of §2); an invalid
path leaves the tree unchanged. -/
def setLeafPathN : GNode → List String → Int → GNode
  | .leaf _ e, [], v => .leaf v e
  | .leaf w e, _ :: _, _ => .leaf w e
  | .grp cs sv e, [], _ => .grp cs sv e
  | .grp cs _ e, k :: p, v =>
      let cs2 := setLeafPathF cs k p v
      .grp cs2 (recomputeF cs2) e
def setLeafPathF : GFields → String → List String → Int → GFields
  | .fnil, _, _, _ => .fnil
  | .fcons n c rest, k, p, v =>
      if n == k then .fcons n (setLeafPathN c p v) rest
      else .fcons n c (setLeafPathF rest k p v)
end

mutual
/-- Modelled from the spec: `disable`/`enable` on the node at the given
path — set the target's enabled flag (its stored value is kept, so
re-enabling restores the previous contribution), then recompute the
composite value of every ancestor group along the path. -/
def setEnabledN : GNode → List String → Bool → GNode
  | .leaf w _, [], b => .leaf w b
  | .leaf w e, _ :: _, _ => .leaf w e
  | .grp cs sv _, [], b => .grp cs sv b
  | .grp cs _ e, k :: p, b =>
      let cs2 := setEnabledF cs k p b
      .grp cs2 (recomputeF cs2) e
def setEnabledF : GFields → String → List String → Bool → GFields
  | .fnil, _, _, _ => .fnil
  | .fcons n c rest, k, p, b =>
      if n == k then .fcons n (setEnabledN c p b) rest
      else .fcons n c (setEnabledF rest k p b)
end

mutual
/-- Modelled from the spec: construction — compute every group's composite
value bottom-up from the supplied children (construction computes initial
values synchronously). -/
def recomputeAllN : GNode → GNode
  | .leaf v e => .leaf v e
  | .grp cs _ e =>
      let cs2 := recomputeAllF cs
      .grp cs2 (recomputeF cs2) e
def recomputeAllF : GFields → GFields
  | .fnil => .fnil
  | .fcons n c rest => .fcons n (recomputeAllN c) (recomputeAllF rest)
end

mutual
/-- The Group value invariant, checked at every group node of the tree: the
stored composite value equals the mapping of enabled children's names to
their values (disabled children's keys absent), recursively. -/
def goodN : GNode → Bool
  | .leaf _ _ => true
  | .grp cs sv _ => beqV sv (recomputeF cs) && goodF cs
def goodF : GFields → Bool
  | .fnil => true
  | .fcons _ c rest => goodN c && goodF rest
end

/-- Modelled from the spec: the reachable states of a control tree — an
initial construction, followed by any sequence of leaf value updates and
enable/disable toggles, each recomputing ancestor composite values along the
mutated path. -/
inductive Reach : GNode → Prop where
  | init (n : GNode) : Reach (recomputeAllN n)
  | setLeafStep (g : GNode) (p : List String) (v : Int) :
      Reach g → Reach (setLeafPathN g p v)
  | setEnabledStep (g : GNode) (p : List String) (b : Bool) :
      Reach g → Reach (setEnabledN g p b)

mutual
theorem goodN_recomputeAll : ∀ n : GNode, goodN (recomputeAllN n) = true
  | .leaf v e => rfl
  | .grp cs sv e => by
      simp [recomputeAllN, goodN, beqV_refl, goodF_recomputeAll cs]
theorem goodF_recomputeAll : ∀ cs : GFields, goodF (recomputeAllF cs) = true
  | .fnil => rfl
  | .fcons n c rest => by
      simp [recomputeAllF, goodF, goodN_recomputeAll c, goodF_recomputeAll rest]
end

mutual
theorem goodN_setLeaf : ∀ (n : GNode) (p : List String) (v : Int),
    goodN n = true → goodN (setLeafPathN n p v) = true
  | .leaf w e, p, v, _ => by cases p <;> simp [setLeafPathN, goodN]
  | .grp cs sv e, [], v, h => by simpa [setLeafPathN] using h
  | .grp cs sv e, k :: p, v, h => by
      have hf : goodF cs = true := by
        simp [goodN] at h; exact h.2
      simp [setLeafPathN, goodN, beqV_refl, goodF_setLeaf cs k p v hf]
theorem goodF_setLeaf : ∀ (cs : GFields) (k : String) (p : List String) (v : Int),
    goodF cs = true → goodF (setLeafPathF cs k p v) = true
  | .fnil, _, _, _, _ => rfl
  | .fcons n c rest, k, p, v, h => by
      have hc : goodN c = true := by simp [goodF] at h; exact h.1
      have hr : goodF rest = true := by simp [goodF] at h; exact h.2
      by_cases hk : (n == k) = true
      · simp [setLeafPathF, hk, goodF, goodN_setLeaf c p v hc, hr]
      · simp [setLeafPathF, hk, goodF, hc, goodF_setLeaf rest k p v hr]
end

mutual
theorem goodN_setEnabled : ∀ (n : GNode) (p : List String) (b : Bool),
    goodN n = true → goodN (setEnabledN n p b) = true
  | .leaf w e, p, b, _ => by cases p <;> simp [setEnabledN, goodN]
  | .grp cs sv e, [], b, h => by simpa [setEnabledN, goodN] using h
  | .grp cs sv e, k :: p, b, h => by
      have hf : goodF cs = true := by
        simp [goodN] at h; exact h.2
      simp [setEnabledN, goodN, beqV_refl, goodF_setEnabled cs k p b hf]
theorem goodF_setEnabled : ∀ (cs : GFields) (k : String) (p : List String) (b : Bool),
    goodF cs = true → goodF (setEnabledF cs k p b) = true
  | .fnil, _, _, _, _ => rfl
  | .fcons n c rest, k, p, b, h => by
      have hc : goodN c = true := by simp [goodF] at h; exact h.1
      have hr : goodF rest = true := by simp [goodF] at h; exact h.2
      by_cases hk : (n == k) = true
      · simp [setEnabledF, hk, goodF, goodN_setEnabled c p b hc, hr]
      · simp [setEnabledF, hk, goodF, hc, goodF_setEnabled rest k p b hr]
end

/-- C1: in every reachable state, every Group Control in the tree has its
`value` equal to the mapping of enabled children's names to their values,
with disabled children's keys absent from the mapping (this is what `goodN`
checks at every group node, recursively). -/
theorem group_value_invariant (g : GNode) (h : Reach g) : goodN g = true := by
  induction h with
  | init n => exact goodN_recomputeAll n
  | setLeafStep g p v _ ih => exact goodN_setLeaf g p v ih
  | setEnabledStep g p b _ ih => exact goodN_setEnabled g p b ih

/-- Witness for C1: a two-child group, built and then with child b disabled,
satisfies the invariant. -/
theorem group_value_invariant_witness :
    goodN (setEnabledN (recomputeAllN
      (GNode.grp (GFields.fcons "a" (GNode.leaf 1 true)
        (GFields.fcons "b" (GNode.leaf 2 true) GFields.fnil))
        (GVal.obj VFields.vnil) true)) ["b"] false) = true :=
  group_value_invariant _ (Reach.setEnabledStep _ _ _ (Reach.init _))

/-- The declared keys of a group: the names of all its children, enabled or
not. -/
def namesOfF : GFields → List String
  | .fnil => []
  | .fcons n _ rest => n :: namesOfF rest

/-- The keys present in an object value. -/
def keysOfVF : VFields → List String
  | .vnil => []
  | .vcons n _ rest => n :: keysOfVF rest

/-- The fields of the composite value stored in a group node. -/
def storedFieldsN : GNode → VFields
  | .grp _ (.obj fs) _ => fs
  | _ => .vnil

theorem keysOfVF_projF_subset : ∀ cs : GFields, keysOfVF (projF cs) ⊆ namesOfF cs
  | .fnil => by simp [projF, keysOfVF, namesOfF]
  | .fcons n c rest => by
      by_cases he : isEnabledN c = true
      · simpa [projF, he, keysOfVF, namesOfF] using
          List.cons_subset_cons n (keysOfVF_projF_subset rest)
      · simpa [projF, he, namesOfF] using
          (keysOfVF_projF_subset rest).trans (List.subset_cons_self n (namesOfF rest))

theorem not_mem_keysOfVF_projF (k : String) (cs : GFields)
    (h : k ∉ namesOfF cs) : k ∉ keysOfVF (projF cs) :=
  fun hmem => h (keysOfVF_projF_subset cs hmem)

theorem isEnabledN_setEnabled_nil : ∀ (c : GNode) (b : Bool),
    isEnabledN (setEnabledN c [] b) = b
  | .leaf _ _, _ => rfl
  | .grp _ _ _, _ => rfl

theorem namesOfF_recomputeAllF : ∀ cs : GFields,
    namesOfF (recomputeAllF cs) = namesOfF cs
  | .fnil => rfl
  | .fcons n c rest => by
      simp [recomputeAllF, namesOfF, namesOfF_recomputeAllF rest]

/-- Disabling the (unique) child named `k` removes key `k` from the group
value projection. -/
theorem key_absent_after_disable : ∀ (cs : GFields) (k : String),
    (namesOfF cs).Nodup → k ∈ namesOfF cs →
    k ∉ keysOfVF (projF (setEnabledF cs k [] false))
  | .fnil, k, _, hk => by simp [namesOfF] at hk
  | .fcons n c rest, k, hnd, hk => by
      simp only [namesOfF, List.nodup_cons] at hnd
      by_cases hnk : (n == k) = true
      · have hn : n = k := by simpa using hnk
        subst hn
        simp only [setEnabledF, hnk, if_true, projF,
          isEnabledN_setEnabled_nil, Bool.false_eq_true, if_false]
        exact not_mem_keysOfVF_projF n rest hnd.1
      · have hne : ¬(n = k) := by simpa using hnk
        have hk2 : k ∈ namesOfF rest := by
          simp only [namesOfF, List.mem_cons] at hk
          rcases hk with h1 | h2
          · exact absurd h1.symm hne
          · exact h2
        have ih := key_absent_after_disable rest k hnd.2 hk2
        simp only [setEnabledF, hnk, if_false]
        by_cases he : isEnabledN c = true
        · simp only [projF, he, if_true, keysOfVF, List.mem_cons]
          rintro (h1 | h2)
          · exact hne h1.symm
          · exact ih h2
        · simpa [projF, he] using ih

/-- C2: the group value is a partial view over the declared shape: in every
state the value's keys form a subset of the declared keys, and every declared
key may be absent — disabling the child under that key yields a reachable
state whose group value omits that key entirely. -/
theorem group_value_partial_view (cs : GFields) (sv : GVal) (e : Bool) (k : String)
    (hnd : (namesOfF cs).Nodup) (hk : k ∈ namesOfF cs) :
    (∀ cs2 : GFields, keysOfVF (projF cs2) ⊆ namesOfF cs2) ∧
    Reach (setEnabledN (recomputeAllN (GNode.grp cs sv e)) [k] false) ∧
    k ∉ keysOfVF (storedFieldsN
      (setEnabledN (recomputeAllN (GNode.grp cs sv e)) [k] false)) := by
  refine ⟨keysOfVF_projF_subset, Reach.setEnabledStep _ _ _ (Reach.init _), ?_⟩
  have hnames : namesOfF (recomputeAllF cs) = namesOfF cs := namesOfF_recomputeAllF cs
  have h := key_absent_after_disable (recomputeAllF cs) k
    (by rw [hnames]; exact hnd) (by rw [hnames]; exact hk)
  simpa [recomputeAllN, setEnabledN, storedFieldsN, recomputeF] using h

/-- Witness for C2 at a concrete two-child group, disabling child b. -/
theorem group_value_partial_view_witness :
    (∀ cs2 : GFields, keysOfVF (projF cs2) ⊆ namesOfF cs2) ∧
    Reach (setEnabledN (recomputeAllN
      (GNode.grp (GFields.fcons "a" (GNode.leaf 1 true)
        (GFields.fcons "b" (GNode.leaf 2 true) GFields.fnil))
        (GVal.obj VFields.vnil) true)) ["b"] false) ∧
    "b" ∉ keysOfVF (storedFieldsN (setEnabledN (recomputeAllN
      (GNode.grp (GFields.fcons "a" (GNode.leaf 1 true)
        (GFields.fcons "b" (GNode.leaf 2 true) GFields.fnil))
        (GVal.obj VFields.vnil) true)) ["b"] false)) :=
  group_value_partial_view _ _ _ _ (by decide) (by decide)

end AngularForms
